import Mathlib

/-!
# Verification of `tsc-utils` (cave-story-randomizer)

A shallow embedding, in Lean 4, of the Python sources
`src/tsc_utils/numbers.py`, `src/tsc_utils/flags.py` and
`src/tsc_utils/codegen.py`, followed by theorems settling the
specification's claims about them.

Modelling conventions:
* Python `bytes` objects become `List Nat` (each element a byte value
  `0..255`); a one-byte argument such as `min_char` becomes a single `Nat`.
* Python `int` becomes `Int`.  Python's floor division `//` and modulo `%`
  agree with Lean's `Int` division `/` (`Int.ediv`) and `%` (`Int.emod`)
  whenever the divisor is positive, which is the case at every division in
  these sources, so `/` and `%` translate them directly.
* A Python function that can raise `ValueError` becomes a function into
  `Except TscError α`; the constructor of `TscError` carries exactly the
  data interpolated into the Python error message.
* `str.zfill`, `str(int)`, `bytes.decode`, f-string interpolation and
  `int.bit_length` are modelled by the `py`-prefixed helpers below.
-/

/-- Decimal digit bytes of a natural number, most significant first:
the body of Python's `str(n)` for `n ≥ 0`.  `fuel` is an upper bound on the
recursion depth (any `fuel > n` works) so that the recursion is structural
and hence reducible by `decide`/`rfl`. -/
def natToDigitsAux : Nat → Nat → List Nat
  | 0, _ => []
  | fuel + 1, n => if n < 10 then [48 + n] else natToDigitsAux fuel (n / 10) ++ [48 + n % 10]

/-- ASCII bytes of the decimal representation of `n : Nat` (Python `str(n)`). -/
def natToDigits (n : Nat) : List Nat :=
  natToDigitsAux (n + 1) n

/-- ASCII bytes of Python `str(n)` for `n : Int` (a leading `-`, byte 45,
for negative numbers). -/
def pyStrBytes (n : Int) : List Nat :=
  if n < 0 then 45 :: natToDigits (-n).toNat else natToDigits n.toNat

/-- Python `str.zfill(width)` on a byte string: left-pad with `'0'` (byte 48)
to `width`, keeping a leading sign byte (`'-'` 45 or `'+'` 43) in front of
the padding. -/
def pyZfill (s : List Nat) (width : Nat) : List Nat :=
  match s with
  | [] => List.replicate width 48
  | c :: rest =>
    if c = 45 ∨ c = 43 then c :: (List.replicate (width - 1 - rest.length) 48 ++ rest)
    else List.replicate (width - (rest.length + 1)) 48 ++ c :: rest

/-- Python `bytes.decode('utf-8')` restricted to ASCII content: every byte
becomes the character of its code point.  All byte strings decoded in the
sources consist of bytes `< 0x80`, where this agrees with UTF-8 decoding. -/
def pyDecodeUtf8 (v : List Nat) : String :=
  String.mk (v.map Char.ofNat)

/-- Python `str(n)` for `n : Int`, as a `String`. -/
def pyStrInt (n : Int) : String :=
  pyDecodeUtf8 (pyStrBytes n)

/-- Lower-case hex digit of `n < 16`. -/
def hexDigit (n : Nat) : Nat :=
  if n < 10 then 48 + n else 87 + n

/-- The escape Python's `repr` of a `bytes` object uses for one byte:
printable ASCII other than the quote and the backslash stands for itself,
tab/newline/carriage-return and everything else are escaped.  (When the
bytes contain a single quote but no double quote CPython switches the outer
quotes instead; no byte string interpolated by these sources contains a
quote, so that case is not modelled.) -/
def pyByteEscape (b : Nat) : List Nat :=
  if b = 92 then [92, 92]
  else if b = 39 then [92, 39]
  else if b = 9 then [92, 116]
  else if b = 10 then [92, 110]
  else if b = 13 then [92, 114]
  else if 32 ≤ b ∧ b < 127 then [b]
  else [92, 120, hexDigit (b / 16), hexDigit (b % 16)]

/-- Python `repr` of a `bytes` object — what an f-string such as
`f"{event_label}{eve}"` in `codegen.py` inserts for a `bytes` value `eve`:
a `b`, a single quote, the escaped bytes, a single quote. -/
def pyBytesRepr (v : List Nat) : String :=
  pyDecodeUtf8 ((98 :: 39 :: (v.map pyByteEscape).flatten) ++ [39])

/-- Python `int.bit_length` for naturals, with structural fuel
(any `fuel > n` works). -/
def bitLengthAux : Nat → Nat → Nat
  | 0, _ => 0
  | fuel + 1, n => if n = 0 then 0 else bitLengthAux fuel (n / 2) + 1

/-- Python `n.bit_length()`: the index just above the highest set bit
(`0` for `n = 0`). -/
def pyBitLength (n : Nat) : Nat :=
  bitLengthAux (n + 1) n

/-- Python `num & (1 << i) != 0` for an arbitrary (possibly negative)
integer `num`, i.e. bit `i` of `num` in two's-complement reading:
`(num >> i)` is odd, with `>>` an arithmetic (floor) shift. -/
def pyTestBit (num : Int) (i : Nat) : Bool :=
  num / 2 ^ i % 2 = 1

example : natToDigits 19072 = [49, 57, 48, 55, 50] := by decide
example : pyZfill (pyStrBytes (-1)) 4 = [45, 48, 48, 49] := by decide
example : pyBitLength 5 = 3 := by decide
example : pyTestBit (-4294967297) 5 = true := by decide

/-! ## `src/tsc_utils/numbers.py` -/

/-- A TSC value: a byte string (`TscValue = bytes` in the source). -/
abbrev TscValue := List Nat

/-- The data of each `ValueError` raised by `numbers.py` / `flags.py`.
Each constructor carries the values the Python code interpolates into the
error message.  (`num_to_tsc_value`'s check that `min_char`/`max_char` are
exactly one byte long has no counterpart here because the model passes each
as one byte by construction.) -/
inductive TscError where
  /-- `min_char {min_char} must be less than or equal to b'0'` -/
  | minTooBig (min_char : Nat)
  /-- `max_char {max_char} must be greater than or equal to b'9'` -/
  | maxTooSmall (max_char : Nat)
  /-- `{num} is outside the possible values of [{min_value}, {max_value}] ...` -/
  | outOfRange (num min_value max_value : Int)
  /-- `{value} too large for a {bits}-bit number.` (from `flags.py`) -/
  | valueTooLarge (value : Int) (bits : Nat)
deriving DecidableEq, Repr

deriving instance DecidableEq for Except

/-- `tsc_value_to_num` (numbers.py lines 7-31): positional base-10 value of
the byte string, each byte contributing `(byte - ord('0')) * 10 ^ dec_place`
with the most significant byte first.  The source loops over
`enumerate(value)` adding `(digit - 48) * 10 ** (len(value) - 1 - i)`;
recursing on the list computes the same sum because the head's decimal
place is the length of the tail. -/
def tsc_value_to_num : TscValue → Int
  | [] => 0
  | digit :: rest => ((digit : Int) - 48) * 10 ^ rest.length + tsc_value_to_num rest

/-- The guard `num <= 10**(output_length-1)` of `num_to_tsc_value`'s
standard-digits branch.  For `output_length = 0` Python evaluates
`10**(-1)` to the float `0.1`, and an integer `num` satisfies `num ≤ 0.1`
exactly when `num ≤ 0`; so the bound is `0` there. -/
def stdBound (output_length : Nat) : Int :=
  if output_length = 0 then 0 else 10 ^ (output_length - 1)

/-- The digit computed at the top of `_single_char_value` (numbers.py
lines 112-116): `digit = num // 10**dec_place` with
`remainder = num % 10**dec_place` — Python floor division and modulo,
which for the positive divisor `10 ^ dec_place` are `Int`'s `/` and `%` —
then `digit -= 1` when the remainder is nonzero and the digit negative. -/
def scvDigit (num : Int) (dec_place : Nat) : Int :=
  let digit0 : Int := num / 10 ^ dec_place
  let remainder : Int := num % 10 ^ dec_place
  if remainder ≠ 0 ∧ digit0 < 0 then digit0 - 1 else digit0

/-- `_single_char_value` (numbers.py lines 107-127), recursion on
`dec_place`.  The byte `ord('0') + digit` (with `digit = scvDigit num
dec_place`) is emitted; at `dec_place = 0` it is the whole result,
otherwise a nonzero digit is followed by `str(remainder).zfill(dec_place)`
and a zero digit by the recursive call at `dec_place - 1`. -/
def _single_char_value (num : Int) : Nat → TscValue
  | 0 => [(48 + scvDigit num 0).toNat]
  | d + 1 =>
    if scvDigit num (d + 1) ≠ 0 then
      (48 + scvDigit num (d + 1)).toNat :: pyZfill (pyStrBytes (num % 10 ^ (d + 1))) (d + 1)
    else
      (48 + scvDigit num (d + 1)).toNat :: _single_char_value num d

/-- The loop of `_multi_char_value` (numbers.py lines 97-105), recursing on
the number `k` of positions still to fill; position `i` of the source's
`range(output_length)` has `k = output_length - i` and decimal place
`10 ^ (k - 1)`.  Each step clamps `num // dec_place` into
`[ord(min_char) - 48, ord(max_char) - 48]`, subtracts `dec_place * char`
from `num` and appends byte `char + 48`. -/
def _multi_char_value_go (min_char max_char : Nat) : Int → Nat → TscValue
  | _, 0 => []
  | num, k + 1 =>
    let dec_place : Int := 10 ^ k
    let char : Int := max ((min_char : Int) - 48) (min (num / dec_place) ((max_char : Int) - 48))
    ((char + 48).toNat) :: _multi_char_value_go min_char max_char (num - dec_place * char) k

/-- `_multi_char_value` (numbers.py lines 91-105). -/
def _multi_char_value (num : Int) (output_length : Nat) (min_char max_char : Nat) : TscValue :=
  _multi_char_value_go min_char max_char num output_length

/-- `num_to_tsc_value` (numbers.py lines 37-89).  `min_char`/`max_char` are
single bytes (Python default `b' '`/`b'~'`, i.e. 32/126); byte-string
comparisons such as `min_char > b'0'` are numeric comparisons of the single
bytes.  After the precondition and range checks the three encoding
strategies are selected exactly as in the source. -/
def num_to_tsc_value (num : Int) (output_length : Nat := 4)
    (min_char : Nat := 32) (max_char : Nat := 126) : Except TscError TscValue :=
  if 48 < min_char then .error (.minTooBig min_char)
  else if max_char < 57 then .error (.maxTooSmall max_char)
  else
    let min_value := tsc_value_to_num (List.replicate output_length min_char)
    let max_value := tsc_value_to_num (List.replicate output_length max_char)
    if ¬(min_value ≤ num ∧ num ≤ max_value) then
      .error (.outOfRange num min_value max_value)
    else if 0 ≤ num ∧ num ≤ stdBound output_length then
      .ok (pyZfill (pyStrBytes num) output_length)
    else
      let min_single := tsc_value_to_num (32 :: List.replicate (output_length - 1) 48)
      let max_single := tsc_value_to_num (126 :: List.replicate (output_length - 1) 57)
      if ¬(min_single ≤ num ∧ num ≤ max_single) then
        .ok (_multi_char_value num output_length min_char max_char)
      else
        .ok (_single_char_value num (output_length - 1))

example : tsc_value_to_num [49, 50, 51, 52] = 1234 := by decide
example : tsc_value_to_num [48, 48, 48, 47] = -1 := by decide
example : tsc_value_to_num [49, 48, 47, 48, 49] = 9901 := by decide
example : num_to_tsc_value 0 = .ok [48, 48, 48, 48] := by decide
example : num_to_tsc_value 100000 5 = .ok [58, 48, 48, 48, 48] := by decide
example : num_to_tsc_value 100000 4 32 255 = .ok [148, 48, 48, 48] := by decide
example : num_to_tsc_value (-1) = .ok [46, 57, 57, 57] := by decide

/-! ## `src/tsc_utils/flags.py` -/

/-- `Address` (flags.py lines 6-25): a byte offset and a bit index.  The
source is a `NamedTuple` over Python ints, so both fields are unbounded
integers; nothing in the constructor forces `0 ≤ bit < 8`. -/
structure Address where
  offset : Int
  bit : Int
deriving DecidableEq, Repr

/-- `Address.bits` (flags.py lines 10-12): the total bit count
`offset * 8 + bit`. -/
def Address.bits (a : Address) : Int :=
  a.offset * 8 + a.bit

/-- `Address.__add__` on two addresses (flags.py lines 17-22):
`offset, bit = divmod(self.bit + other.bit, 8)` followed by
`offset += self.offset + other.offset` (Python `divmod` by the positive 8
is `Int.ediv`/`Int.emod`). -/
def Address.add (a other : Address) : Address :=
  ⟨a.offset + other.offset + (a.bit + other.bit) / 8, (a.bit + other.bit) % 8⟩

/-- `Address.__add__` on an `int` operand (flags.py lines 18-19): the
integer `other` is first converted to `Address(other, 0)` — an offset, not
a bit count — and then added as an address. -/
def Address.addInt (a : Address) (other : Int) : Address :=
  a.add ⟨other, 0⟩

/-- `Address.__sub__` (flags.py lines 24-25) for an `Address` operand:
`self + Address(-other.offset, -other.bit)`.  (With an `int` operand the
source would hit `AttributeError` reading `other.offset`; no caller in the
repository subtracts an int.) -/
def Address.sub (a other : Address) : Address :=
  a.add ⟨-other.offset, -other.bit⟩

/-- `FREEWARE_FLAGS = Address(0x49DDA0, 0)` (flags.py line 27). -/
def FREEWARE_FLAGS : Address :=
  ⟨0x49DDA0, 0⟩

/-- `flag_to_address` (flags.py lines 29-50) for an integer flag:
`offset, bit = divmod(flag, 8)` then `Address(offset, bit) + base`.
(A `TscInput` flag is first converted by `tsc_value_to_num`.) -/
def flag_to_address (flag : Int) (base : Address := FREEWARE_FLAGS) : Address :=
  Address.add ⟨flag / 8, flag % 8⟩ base

/-- `twos_complement` (flags.py lines 52-56): subtract `1 << bits` when
`num & (1 << (bits-1)) != 0`. -/
def twos_complement (num : Int) (bits : Nat) : Int :=
  if pyTestBit num (bits - 1) then num - 2 ^ bits else num

/-- One element produced by the loop of `address_to_flag` (flags.py lines
99-105): the raw flag value when `value is None`, otherwise the
`<FL±`-command string. -/
inductive FlagEntry where
  /-- A raw flag value (`flags.append(f)`). -/
  | raw (f : TscValue)
  /-- A command string (`flags.append(f"{command}{f.decode('utf-8')}")`). -/
  | cmd (s : String)
deriving DecidableEq, Repr

deriving instance DecidableEq for Option

/-- The loop `for i in range(bits)` of `address_to_flag` (flags.py lines
98-106), over the list of the values of `i`; each iteration encodes
`(num + i).bits` (via `Address.__add__` on the `int` `i`) and, when a
value is present, tags the decoded flag with `<FL+` or `<FL-` according to
`value & (1 << i)`. -/
def address_to_flag_loop (num : Address) (value : Option Int) (min_char max_char : Nat) :
    List Nat → Except TscError (List FlagEntry)
  | [] => .ok []
  | i :: rest =>
    match num_to_tsc_value (num.addInt i).bits 4 min_char max_char with
    | .error e => .error e
    | .ok f =>
      match address_to_flag_loop num value min_char max_char rest with
      | .error e => .error e
      | .ok tail =>
        .ok ((match value with
          | none => FlagEntry.raw f
          | some v => .cmd ((if pyTestBit v i then "<FL+" else "<FL-") ++ pyDecodeUtf8 f))
          :: tail)

/-- `address_to_flag` (flags.py lines 58-106) for an `Address` argument.
An `int` address is `Address(address, 0)` (line 94-95); the width check
rejects `value >= 1 << bits`, a negative value is passed through
`twos_complement`, and `num = address - base` seeds the loop. -/
def address_to_flag (address : Address) (value : Option Int := none) (bits : Nat := 32)
    (base : Address := FREEWARE_FLAGS) (min_char : Nat := 0) (max_char : Nat := 255) :
    Except TscError (List FlagEntry) :=
  match value with
  | some v =>
    if v ≥ 2 ^ bits then .error (.valueTooLarge v bits)
    else
      let v' := if v < 0 then twos_complement v bits else v
      address_to_flag_loop (address.sub base) (some v') min_char max_char
        (List.range bits)
  | none =>
    address_to_flag_loop (address.sub base) none min_char max_char (List.range bits)

example : flag_to_address 0 = ⟨0x49DDA0, 0⟩ := by decide
example : flag_to_address 1234 = ⟨0x49DE3A, 2⟩ := by decide
example : flag_to_address (-1) = ⟨0x49DD9F, 7⟩ := by decide
example :
    address_to_flag ⟨0x49DDA0, 0⟩ none 2 = .ok
      [.raw [48, 48, 48, 48], .raw [48, 48, 48, 56]] := by decide

/-! ## `src/tsc_utils/codegen.py` -/

/-- `default_behavior` (codegen.py lines 5-6): `f"BEHAVIOR {value}"`. -/
def default_behavior (value : Int) : String :=
  "BEHAVIOR " ++ pyStrInt value

/-- The inner loop of `codec` (codegen.py lines 43-48) accumulating
`flagjumps` for the values of `i` in `range(first_flag_to_check,
len(flags))`: a target `num = val | (1 << i)` at or beyond `max_val` is
skipped, otherwise `f"{conditional_jump}{flags[i]}:{num_to_tsc_value(...)}"`
is appended (both byte strings rendered by `repr`, as Python f-strings
do). -/
def codec_flagjumps (conditional_jump : String) (base_event_num : Int) (max_val : Int)
    (val : Nat) : List TscValue → Nat → Except TscError String
  | [], _ => .ok ""
  | flag :: rest, i =>
    let num : Nat := val ||| (1 <<< i)
    if (num : Int) ≥ max_val then
      codec_flagjumps conditional_jump base_event_num max_val val rest (i + 1)
    else do
      let eve ← num_to_tsc_value (base_event_num + num)
      let tail ← codec_flagjumps conditional_jump base_event_num max_val val rest (i + 1)
      pure (conditional_jump ++ pyBytesRepr flag ++ ":" ++ pyBytesRepr eve ++ tail)

/-- The `flagjumps` string of one iteration of `codec`'s outer loop
(codegen.py lines 41-48): empty when `first_flag_to_check =
val.bit_length()` is not below the flag count (the source then never
builds `flagjumps`, which is the same as it being empty). -/
def codec_jumps (conditional_jump : String) (base_event_num max_val : Int)
    (flags : List TscValue) (val : Nat) : Except TscError String :=
  if pyBitLength val < flags.length then
    codec_flagjumps conditional_jump base_event_num max_val val
      (flags.drop (pyBitLength val)) (pyBitLength val)
  else
    pure ""

/-- One iteration of `codec`'s outer loop (codegen.py lines 37-51): the
event label line for `val`, then — only when the accumulated `flagjumps`
is nonempty — the jump line, then the behavior line. -/
def codec_val (event_label conditional_jump : String) (base_event_num : Int)
    (flags : List TscValue) (max_val : Int) (behavior : Int → String) (val : Nat) :
    Except TscError String := do
  let eve ← num_to_tsc_value (base_event_num + val)
  let jumps ← codec_jumps conditional_jump base_event_num max_val flags val
  pure (event_label ++ pyBytesRepr eve ++ "\n" ++
    (if jumps.length > 0 then jumps ++ "\n" else "") ++ behavior val ++ "\n")

/-- `codec` (codegen.py lines 8-52).  `max_val` defaults to
`2 ** len(flags)` and is capped by it; `credit` selects the `l`/`f` label
and jump spellings; the script is the concatenation of the per-value
blocks for `val` in `range(max_val)` (empty for `max_val ≤ 0`). -/
def codec (event_no : TscValue) (flags : List TscValue) (max_val : Option Int := none)
    (credit : Bool := false) (behavior : Int → String := default_behavior) :
    Except TscError String := do
  let highest_possible : Int := 2 ^ flags.length
  let maxv : Int := min (max_val.getD highest_possible) highest_possible
  let event_label := if credit then "l" else "#"
  let conditional_jump := if credit then "f" else "<FLJ"
  let base_event_num := tsc_value_to_num event_no
  (List.range maxv.toNat).foldlM
    (fun script val => do
      let block ← codec_val event_label conditional_jump base_event_num flags maxv behavior val
      pure (script ++ block))
    ""

/-! ## Definitions modelled from the spec's words (for comparison only)

The decoder's digit model as claims C3/C4 and spec §4.1 describe it; the
source (`tsc_value_to_num`) is compared against these. -/

/-- Modelled from the spec: §4.1's `digit_of` — "two's-complement
reinterpretation over 8 bits (if bit 7 is set, subtract 256) then subtracts
the code point of `'0'`".  This is the digit model the claims assert; the
source's decoder is compared against it. -/
def digit_twos_complement_spec (b : Nat) : Int :=
  (if 128 ≤ b then (b : Int) - 256 else (b : Int)) - 48

/-- Modelled from the spec: §4.2's decoder formula
`Σ digit_of(v[i]) * 10^(n-1-i)` with `digit_of` the two's-complement digit
model of §4.1, as claim C4 states it. -/
def positional_sum_twos_complement_spec (v : TscValue) : Int :=
  ∑ i ∈ Finset.range v.length,
    digit_twos_complement_spec (v.getD i 0) * 10 ^ (v.length - 1 - i)

/-! ## Claims -/

/-- **C1** (code bug).  The round-trip law fails on the code: with the
default charset and length 4, `num_to_tsc_value (-1)` returns `b'.999'`
(bytes 46,57,57,57), which `tsc_value_to_num` decodes to `-1001`, not `-1`
— even though `-1` is inside the representable range and the function's
own docstring promises `b'000/'`.  (`_single_char_value` applies a digit
adjustment written for truncating division, `util.tsc_divmod`, to Python's
floor division.) -/
theorem roundtrip_fails_at_neg_one :
    num_to_tsc_value (-1) 4 32 126 = .ok [46, 57, 57, 57] ∧
    tsc_value_to_num [46, 57, 57, 57] = -1001 ∧
    tsc_value_to_num (List.replicate 4 32) ≤ -1 ∧
    (-1 : Int) ≤ tsc_value_to_num (List.replicate 4 126) := by decide

/-- **C2** (code bug).  Strategy selection on the default charset:
`num_to_tsc_value 0 = b"0000"` and `num_to_tsc_value 100000 5 = b":0000"`
hold, but `num_to_tsc_value (-1)` returns `b'.999'` (bytes 46,57,57,57),
not the claimed (and docstring-promised) `b"000/"` (bytes 48,48,48,47). -/
theorem strategy_selection_examples_vs_code :
    num_to_tsc_value 0 4 32 126 = .ok [48, 48, 48, 48] ∧
    num_to_tsc_value 100000 5 32 126 = .ok [58, 48, 48, 48, 48] ∧
    num_to_tsc_value (-1) 4 32 126 = .ok [46, 57, 57, 57] ∧
    (Except.ok [46, 57, 57, 57] : Except TscError TscValue) ≠ .ok [48, 48, 48, 47] := by
  decide

/-- **C3** (counterexample).  The decoder's digit for byte `0x80` is `80`
(it computes `byte - 48` directly), while the claimed two's-complement
digit model yields `-176`; so the claim that every byte `≥ 0x80` denotes a
negative digit is false. -/
theorem decoder_digit_not_twos_complement_at_0x80 :
    tsc_value_to_num [128] = 80 ∧ digit_twos_complement_spec 128 = -176 ∧
    (80 : Int) ≠ -176 := by decide

/-- **C3** (amended).  The digit the decoder assigns to a byte `b` is
`b - 0x30` with no two's-complement reinterpretation; in particular every
byte `≥ 0x80` denotes a large *positive* digit (at least 80). -/
theorem decoder_digit_is_byte_minus_48 (b : Nat) (hb : b ≤ 255) :
    tsc_value_to_num [b] = (b : Int) - 48 ∧ (128 ≤ b → 80 ≤ tsc_value_to_num [b]) := by
  refine ⟨by simp [tsc_value_to_num], fun h => ?_⟩
  simp only [tsc_value_to_num, List.length_nil, pow_zero, mul_one, add_zero]
  omega

/-- Witness for `decoder_digit_is_byte_minus_48` at `b = 0x80`. -/
theorem decoder_digit_is_byte_minus_48_witness :
    (128 : Nat) ≤ 255 ∧
    (tsc_value_to_num [128] = (128 : Int) - 48 ∧
      (128 ≤ 128 → 80 ≤ tsc_value_to_num [128])) :=
  ⟨by decide, decoder_digit_is_byte_minus_48 128 (by decide)⟩

/-- **C4** (counterexample).  On `v = [0x80, 0x80]` the decoder returns
`880`, while the claimed positional sum over the two's-complement digit
model gives `-1936`; the claim's formula does not describe the decoder. -/
theorem decoder_sum_not_twos_complement_model :
    tsc_value_to_num [128, 128] = 880 ∧
    positional_sum_twos_complement_spec [128, 128] = -1936 ∧
    (880 : Int) ≠ -1936 := by decide

/-- **C4** (amended).  For every byte sequence `v` of length `n`,
`tsc_value_to_num v` is the positional base-10 sum
`Σ_{i<n} (v[i] - 0x30) * 10^(n-1-i)` — most significant byte first, digit
`byte - 0x30` with no two's-complement step — and the empty sequence
decodes to `0`. -/
theorem decoder_positional_sum (v : TscValue) :
    tsc_value_to_num v =
      ∑ i ∈ Finset.range v.length, ((v.getD i 0 : Int) - 48) * 10 ^ (v.length - 1 - i) ∧
    tsc_value_to_num ([] : TscValue) = 0 := by
  refine ⟨?_, rfl⟩
  induction v with
  | nil => simp [tsc_value_to_num]
  | cons d rest ih =>
    rw [tsc_value_to_num, List.length_cons, Finset.sum_range_succ']
    simp only [List.getD_cons_succ, List.getD_cons_zero, Nat.add_sub_cancel, Nat.sub_zero]
    rw [add_comm, ih]
    congr 1
    refine Finset.sum_congr rfl fun i hi => ?_
    have : rest.length - 1 - i = rest.length - (i + 1) := by omega
    rw [this]

/-- Every byte produced by `natToDigitsAux` is a decimal digit byte. -/
theorem natToDigitsAux_mem_bounds (fuel : Nat) :
    ∀ n, ∀ b ∈ natToDigitsAux fuel n, 48 ≤ b ∧ b ≤ 57 := by
  induction fuel with
  | zero => simp [natToDigitsAux]
  | succ f ih =>
    intro n b hb
    rw [natToDigitsAux] at hb
    split at hb
    · simp only [List.mem_singleton] at hb
      omega
    · rcases List.mem_append.1 hb with h1 | h2
      · exact ih _ b h1
      · simp only [List.mem_singleton] at h2
        have := Nat.mod_lt n (show 0 < 10 by norm_num)
        omega

/-- Every byte of `str(n)` for a nonnegative integer is a digit byte. -/
theorem pyStrBytes_nonneg_mem_bounds (n : Int) (hn : 0 ≤ n) :
    ∀ b ∈ pyStrBytes n, 48 ≤ b ∧ b ≤ 57 := by
  rw [pyStrBytes, if_neg (by omega)]
  exact natToDigitsAux_mem_bounds _ _

/-- `zfill` of a digit-only byte string contains only digit bytes. -/
theorem pyZfill_mem_bounds (s : List Nat) (w : Nat)
    (hs : ∀ b ∈ s, 48 ≤ b ∧ b ≤ 57) :
    ∀ b ∈ pyZfill s w, 48 ≤ b ∧ b ≤ 57 := by
  match s with
  | [] =>
    intro b hb
    rw [pyZfill] at hb
    have := List.eq_of_mem_replicate hb
    omega
  | c :: rest =>
    intro b hb
    have hc := hs c (List.mem_cons_self c rest)
    rw [pyZfill, if_neg (by omega)] at hb
    rcases List.mem_append.1 hb with h1 | h2
    · have := List.eq_of_mem_replicate h1
      omega
    · exact hs b h2

/-- Bounds for `scvDigit`: under the bounds `num_to_tsc_value` guarantees
before calling `_single_char_value`, the (possibly adjusted) digit lies in
`[-17, 78]`. -/
theorem scvDigit_bounds (num : Int) (d : Nat)
    (hlo : -16 * 10 ^ d ≤ num) (hhi : num < 79 * 10 ^ d) :
    -17 ≤ scvDigit num d ∧ scvDigit num d ≤ 78 := by
  have hp : (0 : Int) < 10 ^ d := by positivity
  have hdiv_lo : -16 ≤ num / 10 ^ d := by
    rw [Int.le_ediv_iff_mul_le hp]
    omega
  have hdiv_hi : num / 10 ^ d < 79 := by
    rw [Int.ediv_lt_iff_lt_mul hp]
    omega
  rw [scvDigit]
  split_ifs <;> omega

/-- When `scvDigit num d = 0` the adjustment did not fire, the floor
quotient is zero, and `num` equals its own (nonnegative) remainder. -/
theorem scvDigit_eq_zero_imp (num : Int) (d : Nat) (h : scvDigit num d = 0) :
    num = num % 10 ^ d := by
  have hp : (0 : Int) < 10 ^ d := by positivity
  rw [scvDigit] at h
  split_ifs at h with hcond
  · omega
  · have := Int.ediv_add_emod num (10 ^ d)
    rw [h] at this
    omega

/-- Bytes emitted by `_single_char_value num dec_place` lie in
`[0x1F, 0x7E]` whenever `-16 * 10^dec_place ≤ num < 79 * 10^dec_place` —
the bounds under which `num_to_tsc_value` invokes it.  (`0x1F`, one below
`b' '`, is reachable: the floor-division digit adjustment can push the
leading digit to `-17`.) -/
theorem _single_char_value_mem_bounds (d : Nat) :
    ∀ num : Int, -16 * 10 ^ d ≤ num → num < 79 * 10 ^ d →
      ∀ b ∈ _single_char_value num d, 31 ≤ b ∧ b ≤ 126 := by
  induction d with
  | zero =>
    intro num hlo hhi b hb
    have hdig := scvDigit_bounds num 0 hlo hhi
    simp only [_single_char_value, List.mem_singleton] at hb
    omega
  | succ d ih =>
    intro num hlo hhi b hb
    have hdig := scvDigit_bounds num (d + 1) hlo hhi
    have hp : (0 : Int) < 10 ^ (d + 1) := by positivity
    have hrem_lo : (0 : Int) ≤ num % 10 ^ (d + 1) := Int.emod_nonneg num (by omega)
    have hrem_hi : num % 10 ^ (d + 1) < 10 ^ (d + 1) := Int.emod_lt_of_pos num hp
    rw [_single_char_value] at hb
    split_ifs at hb with hdz
    · rcases List.mem_cons.1 hb with h1 | h2
      · subst h1
        omega
      · have := pyZfill_mem_bounds _ _
          (pyStrBytes_nonneg_mem_bounds (num % 10 ^ (d + 1)) hrem_lo) b h2
        omega
    · rcases List.mem_cons.1 hb with h1 | h2
      · subst h1
        omega
      · -- recursive branch: the quotient is zero, so `num = num % 10^(d+1)`
        -- is nonnegative and below `10^(d+1) ≤ 79 * 10^d`
        have hz := scvDigit_eq_zero_imp num (d + 1) (by omega)
        have h10 : (10 : Int) ^ (d + 1) = 10 * 10 ^ d := by ring
        refine ih num (by nlinarith [pow_pos (show (0:Int) < 10 by norm_num) d]) ?_ b h2
        omega

/-- Bytes emitted by `_multi_char_value_go` are clamped into
`[min_char, max_char]` (using only `min_char ≤ 48 ≤ 57 ≤ max_char`). -/
theorem _multi_char_value_go_mem_bounds (min_char max_char : Nat)
    (hm : min_char ≤ 48) (hM : 57 ≤ max_char) :
    ∀ (k : Nat) (num : Int), ∀ b ∈ _multi_char_value_go min_char max_char num k,
      min_char ≤ b ∧ b ≤ max_char := by
  intro k
  induction k with
  | zero =>
    intro num b hb
    simp [_multi_char_value_go] at hb
  | succ k ih =>
    intro num b hb
    rw [_multi_char_value_go] at hb
    rcases List.mem_cons.1 hb with h1 | h2
    · subst h1
      have h1 : (min_char : Int) - 48 ≤
          max ((min_char : Int) - 48) (min (num / 10 ^ k) ((max_char : Int) - 48)) :=
        le_max_left _ _
      have h2 : max ((min_char : Int) - 48) (min (num / 10 ^ k) ((max_char : Int) - 48)) ≤
          (max_char : Int) - 48 :=
        max_le (by omega) (min_le_right _ _)
      omega
    · exact ih _ b h2

/-- `tsc_value_to_num` on `k` repetitions of the byte `'0'` is `0`. -/
theorem tsc_value_to_num_replicate_48 (k : Nat) :
    tsc_value_to_num (List.replicate k 48) = 0 := by
  induction k with
  | zero => rfl
  | succ k ih =>
    rw [List.replicate_succ, tsc_value_to_num, ih]
    norm_num

/-- `tsc_value_to_num` on `k` repetitions of the byte `'9'` is `10^k - 1`. -/
theorem tsc_value_to_num_replicate_57 (k : Nat) :
    tsc_value_to_num (List.replicate k 57) = 10 ^ k - 1 := by
  induction k with
  | zero => rfl
  | succ k ih =>
    rw [List.replicate_succ, tsc_value_to_num, ih, List.length_replicate]
    ring

/-- The lower bound of the single-out-of-bounds range,
`tsc_value_to_num(b' ' + b'0' * k)`, is `-16 * 10^k`. -/
theorem tsc_single_min (k : Nat) :
    tsc_value_to_num (32 :: List.replicate k 48) = -16 * 10 ^ k := by
  rw [tsc_value_to_num, tsc_value_to_num_replicate_48, List.length_replicate]
  ring

/-- The upper bound of the single-out-of-bounds range,
`tsc_value_to_num(b'~' + b'9' * k)`, is `79 * 10^k - 1`. -/
theorem tsc_single_max (k : Nat) :
    tsc_value_to_num (126 :: List.replicate k 57) = 79 * 10 ^ k - 1 := by
  rw [tsc_value_to_num, tsc_value_to_num_replicate_57, List.length_replicate]
  ring

/-- **C6** (counterexample).  With `min_char = b' '` and `max_char = b':'`
(58) — both satisfying the preconditions — and `num = 11110`, which equals
the upper bound `tsc_value_to_num(b"::::")` of the representable range,
`num_to_tsc_value` returns `b';110'`, whose first byte 59 exceeds
`max_char`: the single-out-of-bounds strategy clamps to the hard-coded
printable range `[b' ', b'~']`, not to the caller's charset. -/
theorem charset_invariant_fails_at_11110 :
    (32 : Nat) ≤ 48 ∧ (57 : Nat) ≤ 58 ∧
    tsc_value_to_num (List.replicate 4 32) ≤ 11110 ∧
    (11110 : Int) ≤ tsc_value_to_num (List.replicate 4 58) ∧
    num_to_tsc_value 11110 4 32 58 = .ok [59, 49, 49, 48] ∧
    ¬(∀ b ∈ [59, 49, 49, 48], 32 ≤ b ∧ b ≤ 58) := by decide

/-- **C6** (amended).  Every byte of a value returned by
`num_to_tsc_value` lies in `[min_char, max_char]` *or* in the printable
window `[0x1F, 0x7E]`: the standard and multi-character strategies respect
the caller's charset, while the single-out-of-bounds strategy uses the
hard-coded printable range (off by one at the bottom, from the
floor-division digit adjustment) regardless of `min_char`/`max_char`. -/
theorem charset_union_invariant (num : Int) (L min_char max_char : Nat)
    (hmin : min_char ≤ 48) (hmax : 57 ≤ max_char) (v : TscValue)
    (hok : num_to_tsc_value num L min_char max_char = .ok v) :
    ∀ b ∈ v, (min_char ≤ b ∧ b ≤ max_char) ∨ (31 ≤ b ∧ b ≤ 126) := by
  intro b hb
  unfold num_to_tsc_value at hok
  rw [if_neg (by omega), if_neg (by omega)] at hok
  simp only [] at hok
  split_ifs at hok with hrange hstd hsingle
  · -- standard strategy: decimal digits of a nonnegative number
    obtain ⟨rfl⟩ : pyZfill (pyStrBytes num) L = v := by
      injection hok
    have := pyZfill_mem_bounds _ _ (pyStrBytes_nonneg_mem_bounds num hstd.1) b hb
    omega
  · -- single-out-of-bounds strategy: within the printable window
    obtain ⟨rfl⟩ : _single_char_value num (L - 1) = v := by
      injection hok
    rw [tsc_single_min, tsc_single_max] at hsingle
    exact Or.inr (_single_char_value_mem_bounds (L - 1) num hsingle.1 (by omega) b hb)
  · -- multi-character strategy: clamped into the caller's charset
    obtain ⟨rfl⟩ : _multi_char_value num L min_char max_char = v := by
      injection hok
    exact Or.inl (_multi_char_value_go_mem_bounds min_char max_char hmin hmax L num b hb)

/-- **C8** (counterexample).  In the claimed scenario — 3 flags,
`max_val = 8`, starting event `b"0100"` — the event block for value 5
(`0b101`) is just the label line and the behavior line: it contains no
conditional jump at all (in particular none to event base+7), because the
generator starts checking at `val.bit_length() = 3`, which already equals
the flag count.  The claim's "at or above the highest set bit" (index 2)
is wrong: the code checks bits strictly above it. -/
theorem codec_value5_emits_no_jump :
    codec_val "#" "<FLJ" 100 [[48, 48, 48, 49], [48, 48, 48, 50], [48, 48, 48, 52]] 8
      default_behavior 5 = .ok "#b'0105'\nBEHAVIOR 5\n" ∧
    ¬ ("<FLJ".data <:+: ("#b'0105'\nBEHAVIOR 5\n").data) := by decide

set_option maxRecDepth 8192 in
/-- **C8** (amended).  The event for value `v` jumps to `v | (1 << i)`
exactly for the bit indices `i` *strictly above* `v`'s highest set bit
(`i ≥ v.bit_length()`) whose target is below the cap.  For the 3-flag,
`max_val = 8` scenario starting at event `"0100"` the full script is as
computed below: the event for value 5 emits no conditional jumps, only its
behavior text, and the single jump to event base+7 belongs to value 3's
event instead.  In general, whenever `v.bit_length()` is at least the flag
count — as for value 5 here — the block is just the label and behavior
lines. -/
theorem codec_dispatch_amended :
    codec [48, 49, 48, 48] [[48, 48, 48, 49], [48, 48, 48, 50], [48, 48, 48, 52]]
        (some 8) false default_behavior =
      .ok ("#b'0100'\n<FLJb'0001':b'0101'<FLJb'0002':b'0102'<FLJb'0004':b'0104'\nBEHAVIOR 0\n" ++
        "#b'0101'\n<FLJb'0002':b'0103'<FLJb'0004':b'0105'\nBEHAVIOR 1\n" ++
        "#b'0102'\n<FLJb'0004':b'0106'\nBEHAVIOR 2\n" ++
        "#b'0103'\n<FLJb'0004':b'0107'\nBEHAVIOR 3\n" ++
        "#b'0104'\nBEHAVIOR 4\n" ++ "#b'0105'\nBEHAVIOR 5\n" ++
        "#b'0106'\nBEHAVIOR 6\n" ++ "#b'0107'\nBEHAVIOR 7\n") ∧
    ∀ (val : Nat) (flags : List TscValue) (el cj : String) (base maxv : Int)
      (behavior : Int → String), flags.length ≤ pyBitLength val →
      codec_val el cj base flags maxv behavior val =
        (num_to_tsc_value (base + val)).map
          (fun eve => el ++ pyBytesRepr eve ++ "\n" ++ behavior val ++ "\n") := by
  refine ⟨by decide, ?_⟩
  intro val flags el cj base maxv behavior hlen
  have hj : codec_jumps cj base maxv flags val = pure "" := by
    rw [codec_jumps, if_neg (by omega)]
  unfold codec_val
  rw [hj]
  cases h : num_to_tsc_value (base + (val : Int)) 4 32 126 with
  | error e => rfl
  | ok eve =>
    show Except.ok _ = Except.ok _
    simp

/-- Witness for the general conjunct of `codec_dispatch_amended` at
value 5 with 3 flags. -/
theorem codec_dispatch_amended_witness :
    ([[48, 48, 48, 49], [48, 48, 48, 50], [48, 48, 48, 52]] : List TscValue).length ≤
      pyBitLength 5 ∧
    codec_val "#" "<FLJ" 100 [[48, 48, 48, 49], [48, 48, 48, 50], [48, 48, 48, 52]] 8
        default_behavior 5 =
      (num_to_tsc_value (100 + (5 : Nat))).map
        (fun eve => "#" ++ pyBytesRepr eve ++ "\n" ++ default_behavior 5 ++ "\n") :=
  ⟨by decide,
    codec_dispatch_amended.2 5 [[48, 48, 48, 49], [48, 48, 48, 50], [48, 48, 48, 52]]
      "#" "<FLJ" 100 8 default_behavior (by decide)⟩

/-- Witness for `charset_union_invariant`: `num_to_tsc_value 1234` is
`b"1234"` and its byte 49 is within the default charset. -/
theorem charset_union_invariant_witness :
    (32 : Nat) ≤ 48 ∧ (57 : Nat) ≤ 126 ∧
    num_to_tsc_value 1234 4 32 126 = .ok [49, 50, 51, 52] ∧
    ((32 ≤ 49 ∧ 49 ≤ 126) ∨ (31 ≤ 49 ∧ 49 ≤ 126)) :=
  ⟨by decide, by decide, by decide,
    charset_union_invariant 1234 4 32 126 (by decide) (by decide)
      [49, 50, 51, 52] (by decide) 49 (by decide)⟩

/-- "Is a set command": the entry is a command string beginning with
`<FL+`. -/
def isSetCmd (e : FlagEntry) : Prop :=
  ∃ s, e = .cmd ("<FL+" ++ s)

/-- "Is a clear command": the entry is a command string beginning with
`<FL-`. -/
def isClearCmd (e : FlagEntry) : Prop :=
  ∃ s, e = .cmd ("<FL-" ++ s)

/-- A string cannot begin with both `<FL+` and `<FL-`. -/
theorem set_head_ne_clear_head (s t : String) : "<FL+" ++ s ≠ "<FL-" ++ t := by
  intro h
  have hd := congrArg String.data h
  simp [String.data_append] at hd

/-- Python's bit test on an arbitrary integer agrees, below the width,
with the bit of the `bits`-bit two's-complement encoding
`(x % 2^bits).toNat`. -/
theorem pyTestBit_eq_testBit_emod (x : Int) (i bits : Nat) (h : i < bits) :
    pyTestBit x i = Nat.testBit ((x % (2 : Int) ^ bits).toNat) i := by
  have h2i : (0 : Int) < 2 ^ i := by positivity
  have h2b : (0 : Int) < 2 ^ bits := by positivity
  have hr0 : (0 : Int) ≤ x % 2 ^ bits := Int.emod_nonneg x (by omega)
  have hx : (2 : Int) ^ bits * (x / 2 ^ bits) + x % 2 ^ bits = x :=
    Int.ediv_add_emod x (2 ^ bits)
  set q := x / 2 ^ bits with hq
  set r := x % 2 ^ bits with hr
  have hsplit : x / 2 ^ i = r / 2 ^ i + 2 ^ (bits - i) * q := by
    have hpow : (2 : Int) ^ bits = 2 ^ i * 2 ^ (bits - i) := by
      rw [← pow_add]
      congr 1
      omega
    conv_lhs => rw [← hx, hpow, mul_assoc, add_comm]
    rw [Int.add_mul_ediv_left r _ (ne_of_gt h2i)]
  have hmod : x / 2 ^ i % 2 = r / 2 ^ i % 2 := by
    obtain ⟨t, ht⟩ : (2 : Int) ∣ 2 ^ (bits - i) := dvd_pow_self 2 (by omega)
    rw [hsplit, ht, mul_assoc, Int.add_mul_emod_self_left]
  have hcast : r / 2 ^ i % 2 = ((r.toNat / 2 ^ i % 2 : Nat) : Int) := by
    push_cast
    rw [Int.toNat_of_nonneg hr0]
  rw [pyTestBit, hmod, hcast, Nat.testBit_to_div_mod, decide_eq_decide]
  omega

/-- The loop of `address_to_flag` with a value present: on success it
returns one command per index, each tagged `<FL+` or `<FL-` according to
Python's bit test of the value at that index. -/
theorem address_to_flag_loop_ok (num : Address) (v : Int) (m M : Nat) :
    ∀ (idx : List Nat) (entries : List FlagEntry),
      address_to_flag_loop num (some v) m M idx = .ok entries →
      entries.length = idx.length ∧
      ∀ j, j < idx.length → ∃ f,
        num_to_tsc_value (num.addInt (idx.getD j 0)).bits 4 m M = .ok f ∧
        entries.getD j (.cmd "") =
          .cmd ((if pyTestBit v (idx.getD j 0) then "<FL+" else "<FL-") ++ pyDecodeUtf8 f) := by
  intro idx
  induction idx with
  | nil =>
    intro entries h
    rw [address_to_flag_loop] at h
    injection h with h
    subst h
    exact ⟨rfl, fun j hj => absurd hj (by simp)⟩
  | cons i rest ih =>
    intro entries h
    rw [address_to_flag_loop] at h
    cases hf : num_to_tsc_value (num.addInt i).bits 4 m M with
    | error e =>
      rw [hf] at h
      exact Except.noConfusion h
    | ok f =>
      rw [hf] at h
      cases ht : address_to_flag_loop num (some v) m M rest with
      | error e =>
        rw [ht] at h
        exact Except.noConfusion h
      | ok tail =>
        rw [ht] at h
        injection h with h
        subst h
        obtain ⟨hlen, htail⟩ := ih tail ht
        refine ⟨by simpa using hlen, fun j hj => ?_⟩
        cases j with
        | zero => exact ⟨f, hf, rfl⟩
        | succ j =>
          simp only [List.getD_cons_succ]
          exact htail j (by simpa using hj)

/-- **C9**.  Whenever `address_to_flag` is called with a value and
succeeds, it returns exactly `bits` commands, one per bit
least-significant first, and the command at position `i` is a set command
(`<FL+`) precisely when bit `i` of the `bits`-bit two's-complement
encoding `(value % 2^bits).toNat` of the value is set, and a clear command
(`<FL-`) otherwise.  (Success implies the width check `value < 2^bits`
passed.) -/
theorem flag_commands_tag_bits (address : Address) (v : Int) (bits : Nat)
    (base : Address) (m M : Nat) (entries : List FlagEntry)
    (hok : address_to_flag address (some v) bits base m M = .ok entries) :
    v < 2 ^ bits ∧ entries.length = bits ∧
    ∀ i, i < bits →
      (isSetCmd (entries.getD i (.cmd "")) ↔ Nat.testBit ((v % (2 : Int) ^ bits).toNat) i) ∧
      (isClearCmd (entries.getD i (.cmd "")) ↔
        ¬ Nat.testBit ((v % (2 : Int) ^ bits).toNat) i) := by
  rw [address_to_flag] at hok
  by_cases hbig : v ≥ 2 ^ bits
  · rw [if_pos hbig] at hok
    exact Except.noConfusion hok
  rw [if_neg hbig] at hok
  simp only [] at hok
  have hv : v < 2 ^ bits := by omega
  set v' : Int := if v < 0 then twos_complement v bits else v with hv'
  obtain ⟨hlen, htags⟩ := address_to_flag_loop_ok (address.sub base) v' m M
    (List.range bits) entries hok
  have hsub : ∀ a n : Int, (a - n) % n = a % n := fun a n => by
    rw [Int.sub_emod, Int.emod_self, sub_zero, Int.emod_emod_of_dvd a dvd_rfl]
  have hbit : ∀ i, i < bits → pyTestBit v' i = Nat.testBit ((v % (2 : Int) ^ bits).toNat) i := by
    intro i hi
    have hmodeq : v' % (2 : Int) ^ bits = v % (2 : Int) ^ bits := by
      rw [hv', twos_complement]
      split_ifs
      · exact hsub v (2 ^ bits)
      · rfl
      · rfl
    rw [pyTestBit_eq_testBit_emod v' i bits hi, hmodeq]
  refine ⟨hv, by simpa using hlen, fun i hi => ?_⟩
  obtain ⟨f, -, hentry⟩ := htags i (by simpa using hi)
  have hrange_i : (List.range bits).getD i 0 = i := by
    rw [List.getD_eq_getElem?_getD, List.getElem?_range (by simpa using hi)]
    rfl
  rw [hrange_i, hbit i hi] at hentry
  cases htb : Nat.testBit ((v % (2 : Int) ^ bits).toNat) i with
  | true =>
    rw [htb, if_pos rfl] at hentry
    constructor
    · exact iff_of_true ⟨pyDecodeUtf8 f, hentry⟩ rfl
    · refine iff_of_false ?_ (by simp)
      rintro ⟨s, hs⟩
      rw [hentry] at hs
      injection hs with hs
      exact set_head_ne_clear_head (pyDecodeUtf8 f) s hs
  | false =>
    rw [htb, if_neg (by simp)] at hentry
    constructor
    · refine iff_of_false ?_ (by simp)
      rintro ⟨s, hs⟩
      rw [hentry] at hs
      injection hs with hs
      exact set_head_ne_clear_head s (pyDecodeUtf8 f) hs.symm
    · exact iff_of_true ⟨pyDecodeUtf8 f, hentry⟩ (by simp)

/-- The command list `address_to_flag(0x49E6E8, 256, 32)` returns —
matching the source's booster-fuel docstring example. -/
def boosterFuelCommands : List FlagEntry :=
  [.cmd "<FL-C008", .cmd "<FL-C016", .cmd "<FL-C024", .cmd "<FL-C032",
   .cmd "<FL-C040", .cmd "<FL-C048", .cmd "<FL-C056", .cmd "<FL-C064",
   .cmd "<FL+C072", .cmd "<FL-C080", .cmd "<FL-C088", .cmd "<FL-C096",
   .cmd "<FL-C104", .cmd "<FL-C112", .cmd "<FL-C120", .cmd "<FL-C128",
   .cmd "<FL-C136", .cmd "<FL-C144", .cmd "<FL-C152", .cmd "<FL-C160",
   .cmd "<FL-C168", .cmd "<FL-C176", .cmd "<FL-C184", .cmd "<FL-C192",
   .cmd "<FL-C200", .cmd "<FL-C208", .cmd "<FL-C216", .cmd "<FL-C224",
   .cmd "<FL-C232", .cmd "<FL-C240", .cmd "<FL-C248", .cmd "<FL-C256"]

/-- Witness for `flag_commands_tag_bits` at the booster-fuel example
`address_to_flag(0x49E6E8, value=256, bits=32)`: 32 commands, the 9th
(bit 8) a set command. -/
theorem flag_commands_tag_bits_witness :
    address_to_flag ⟨0x49E6E8, 0⟩ (some 256) 32 FREEWARE_FLAGS 0 255 =
      .ok boosterFuelCommands ∧
    ((256 : Int) < 2 ^ 32 ∧ boosterFuelCommands.length = 32 ∧
      ∀ i, i < 32 →
        (isSetCmd (boosterFuelCommands.getD i (.cmd "")) ↔
          Nat.testBit (((256 : Int) % (2 : Int) ^ 32).toNat) i) ∧
        (isClearCmd (boosterFuelCommands.getD i (.cmd "")) ↔
          ¬ Nat.testBit (((256 : Int) % (2 : Int) ^ 32).toNat) i)) :=
  ⟨by decide,
    flag_commands_tag_bits ⟨0x49E6E8, 0⟩ 256 32 FREEWARE_FLAGS 0 255
      boosterFuelCommands (by decide)⟩

/-- **C10**.  `Address` addition and subtraction are homomorphisms onto
total bit counts and always normalize the bit field into `[0, 8)`, for
arbitrary integer offset and bit fields; and addition is associative. -/
theorem address_bits_homomorphism (a b c : Address) :
    (a.add b).bits = a.bits + b.bits ∧ 0 ≤ (a.add b).bit ∧ (a.add b).bit < 8 ∧
    (a.sub b).bits = a.bits - b.bits ∧ 0 ≤ (a.sub b).bit ∧ (a.sub b).bit < 8 ∧
    (a.add b).add c = a.add (b.add c) := by
  obtain ⟨ao, ab⟩ := a
  obtain ⟨bo, bb⟩ := b
  obtain ⟨co, cb⟩ := c
  simp only [Address.add, Address.sub, Address.bits, Address.mk.injEq]
  omega

/-- **C7** (counterexample).  `Address(5,3) + Address(0,8) = Address(6,3)`,
not the claimed `Address(6,0)`: the carry increments the offset but the
bit field is preserved, not reset.  And `Address(5,3) + 8 = Address(13,3)`:
an integer operand is converted to `Address(8, 0)` — a byte offset — so
neither addition yields `Address(o+1, 0)`. -/
theorem address_add_eight_not_carry_reset :
    Address.add ⟨5, 3⟩ ⟨0, 8⟩ = ⟨6, 3⟩ ∧ Address.addInt ⟨5, 3⟩ 8 = ⟨13, 3⟩ ∧
    (⟨6, 3⟩ : Address) ≠ ⟨6, 0⟩ ∧ (⟨13, 3⟩ : Address) ≠ ⟨6, 0⟩ := by decide

/-- **C7** (amended).  For `Address(o, b)` with `0 ≤ b < 8`: adding
`Address(0, 8)` yields `Address(o+1, b)` (offset incremented, bit
preserved), and adding the integer `8` — which the implementation converts
to `Address(8, 0)`, treating integers as byte offsets — yields
`Address(o+8, b)`. -/
theorem address_add_eight_behavior (o b : Int) (h0 : 0 ≤ b) (h8 : b < 8) :
    Address.add ⟨o, b⟩ ⟨0, 8⟩ = ⟨o + 1, b⟩ ∧ Address.addInt ⟨o, b⟩ 8 = ⟨o + 8, b⟩ := by
  simp only [Address.add, Address.addInt, Address.mk.injEq]
  omega

/-- **C5**.  With the byte-range preconditions satisfied,
`num_to_tsc_value` fails with the out-of-range error — carrying the
offending value and the two bounds `tsc_value_to_num(min_char * length)` /
`tsc_value_to_num(max_char * length)` — exactly when `num` lies outside
that closed interval, and every `num` inside it produces a result. -/
theorem range_rejection_iff_outside_bounds (num : Int) (L min_char max_char : Nat)
    (hmin : min_char ≤ 48) (hmax : 57 ≤ max_char) :
    (num_to_tsc_value num L min_char max_char =
        .error (.outOfRange num (tsc_value_to_num (List.replicate L min_char))
          (tsc_value_to_num (List.replicate L max_char))) ↔
      ¬(tsc_value_to_num (List.replicate L min_char) ≤ num ∧
        num ≤ tsc_value_to_num (List.replicate L max_char))) ∧
    ((tsc_value_to_num (List.replicate L min_char) ≤ num ∧
        num ≤ tsc_value_to_num (List.replicate L max_char)) →
      ∃ v, num_to_tsc_value num L min_char max_char = .ok v) := by
  have h1 : ¬48 < min_char := by omega
  have h2 : ¬max_char < 57 := by omega
  unfold num_to_tsc_value
  rw [if_neg h1, if_neg h2]
  by_cases h : tsc_value_to_num (List.replicate L min_char) ≤ num ∧
      num ≤ tsc_value_to_num (List.replicate L max_char)
  · rw [if_neg (not_not_intro h)]
    refine ⟨⟨fun he => ?_, fun hn => absurd h hn⟩, fun _ => ?_⟩
    · simp only [] at he
      split_ifs at he
    · simp only []
      split_ifs <;> exact ⟨_, rfl⟩
  · rw [if_pos h]
    exact ⟨⟨fun _ => h, fun _ => rfl⟩, fun hin => absurd hin h⟩

/-- Witness for `range_rejection_iff_outside_bounds` at the default
charset, length 4, `num = 99999` (above `decode(b"~~~~") = 86658`). -/
theorem range_rejection_iff_outside_bounds_witness :
    (32 : Nat) ≤ 48 ∧ (57 : Nat) ≤ 126 ∧
    ((num_to_tsc_value 99999 4 32 126 =
        .error (.outOfRange 99999 (tsc_value_to_num (List.replicate 4 32))
          (tsc_value_to_num (List.replicate 4 126))) ↔
      ¬(tsc_value_to_num (List.replicate 4 32) ≤ 99999 ∧
        (99999 : Int) ≤ tsc_value_to_num (List.replicate 4 126))) ∧
    ((tsc_value_to_num (List.replicate 4 32) ≤ 99999 ∧
        (99999 : Int) ≤ tsc_value_to_num (List.replicate 4 126)) →
      ∃ v, num_to_tsc_value 99999 4 32 126 = .ok v)) :=
  ⟨by decide, by decide,
    range_rejection_iff_outside_bounds 99999 4 32 126 (by decide) (by decide)⟩

/-- Witness for `address_add_eight_behavior` at `o = 5`, `b = 3`. -/
theorem address_add_eight_behavior_witness :
    (0 ≤ (3 : Int) ∧ (3 : Int) < 8) ∧
    (Address.add ⟨5, 3⟩ ⟨0, 8⟩ = ⟨5 + 1, 3⟩ ∧ Address.addInt ⟨5, 3⟩ 8 = ⟨5 + 8, 3⟩) :=
  ⟨⟨by decide, by decide⟩, address_add_eight_behavior 5 3 (by decide) (by decide)⟩
